import Mathlib

/-!
Connections-tree view: event dispatch.

A shallow embedding of `src/modules/connections-tree/treeview.cpp`
(`ConnectionsTree::TreeView` and the free function `keySequenceFromKeyEvent`).

The dispatcher owns no domain state.  Every entry point is therefore embedded as a
function from the surroundings it reads (model, nodes, selection, geometry) to the
ordered list of calls it makes on its collaborators.  Each entry point reads all it
needs before its first side-effecting call, so the answers of the collaborators are
taken at the time of the dispatch.

Qt value types that the file uses but does not define (`QPoint`, `QModelIndex`,
`QKeySequence`, the `Qt::Key` and `Qt::KeyboardModifier` constants) are modelled after
the Qt documentation and marked as such.
-/

namespace ConnectionsTree

/-! ## Qt value types and constants -/

/-- Qt constant `Qt::Key_unknown`. -/
def Key_unknown : Int := 0x01ffffff
/-- Qt constant `Qt::Key_Return`. -/
def Key_Return : Int := 0x01000004
/-- Qt constant `Qt::Key_Enter`. -/
def Key_Enter : Int := 0x01000005
/-- Qt constant `Qt::Key_Shift`. -/
def Key_Shift : Int := 0x01000020
/-- Qt constant `Qt::Key_Control`. -/
def Key_Control : Int := 0x01000021
/-- Qt constant `Qt::Key_Meta`. -/
def Key_Meta : Int := 0x01000022
/-- Qt constant `Qt::Key_Alt`. -/
def Key_Alt : Int := 0x01000023

/-- Qt constant `Qt::ShiftModifier`. -/
def ShiftModifier : Nat := 0x02000000
/-- Qt constant `Qt::ControlModifier`. -/
def ControlModifier : Nat := 0x04000000
/-- Qt constant `Qt::AltModifier`. -/
def AltModifier : Nat := 0x08000000
/-- Qt constant `Qt::MetaModifier`. -/
def MetaModifier : Nat := 0x10000000
/-- Qt constant `Qt::KeypadModifier` (never read by the dispatcher). -/
def KeypadModifier : Nat := 0x20000000

/-- Qt constant `Qt::SHIFT`. -/
def SHIFT : Int := 0x02000000
/-- Qt constant `Qt::CTRL`. -/
def CTRL : Int := 0x04000000
/-- Qt constant `Qt::ALT`. -/
def ALT : Int := 0x08000000
/-- Qt constant `Qt::META`. -/
def META : Int := 0x10000000

/-- The four modifier bits that `keySequenceFromKeyEvent` looks at, as one mask. -/
def fourModifierMask : Nat := 0x1E000000

/-- Result of a C++ `int` addition: the value reduced to the signed 32-bit range
(two's complement wrap-around). -/
def wrapInt32 (x : Int) : Int := (x + 2147483648) % 4294967296 - 2147483648

/-- Qt `QPoint`. -/
structure QPoint where
  x : Int
  y : Int
deriving DecidableEq, Repr

/-- Qt `QPoint::isNull`: both coordinates are zero. -/
def QPoint.isNull (p : QPoint) : Bool := p.x == 0 && p.y == 0

/-- Qt `QModelIndex`: row, column, an internal identifier and the owning model
(`none` for a null model pointer). -/
structure QModelIndex where
  row : Int
  column : Int
  internalId : Nat
  model : Option Nat
deriving DecidableEq, Repr

/-- Qt `QModelIndex::isValid`: non-negative row and column and a model. -/
def QModelIndex.isValid (i : QModelIndex) : Bool :=
  decide (0 ≤ i.row) && decide (0 ≤ i.column) && i.model.isSome

/-- Qt `QKeySequence`, as documented: a sequence of at most four key combinations; only
the leading non-zero combinations are kept, so the default-constructed sequence has no
key at all. -/
structure QKeySequence where
  keys : List Int
deriving DecidableEq, Repr

/-- Qt `QKeySequence::SequenceMatch`. -/
inductive SequenceMatch where
  | NoMatch
  | PartialMatch
  | ExactMatch
deriving DecidableEq, Repr

namespace QKeySequence

/-- Qt `QKeySequence()`: the empty sequence. -/
def empty : QKeySequence := ⟨[]⟩

/-- Qt `QKeySequence(int k1)` (the other three arguments default to zero); a zero
combination is no key. -/
def ofInt (k1 : Int) : QKeySequence := if k1 = 0 then ⟨[]⟩ else ⟨[k1]⟩

/-- Qt `QKeySequence::count`. -/
def count (s : QKeySequence) : Nat := s.keys.length

/-- Qt `QKeySequence::isEmpty`. -/
def isEmpty (s : QKeySequence) : Bool := s.keys.isEmpty

/-- Qt `QKeySequence::matches` (that name is reserved in Lean): `s.matches(seq)` is
`NoMatch` when `s` is longer than `seq` or differs from it at one of its own positions,
`ExactMatch` when the two have the same length, `PartialMatch` otherwise. -/
def matchesSeq (s seq : QKeySequence) : SequenceMatch :=
  if s.count > seq.count then SequenceMatch.NoMatch
  else if s.keys = seq.keys.take s.count then
    (if s.count = seq.count then SequenceMatch.ExactMatch else SequenceMatch.PartialMatch)
  else SequenceMatch.NoMatch

end QKeySequence

/-- Conversion of a `SequenceMatch` used as a C++ condition: every value but `NoMatch`
(which is zero) is true. -/
def SequenceMatch.toBool : SequenceMatch → Bool
  | SequenceMatch.NoMatch => false
  | _ => true

/-- Qt `QKeyEvent`, reduced to what is read here: `key()`, `modifiers()`, `text()`. -/
structure QKeyEvent where
  key : Int
  modifiers : Nat
  text : String
deriving DecidableEq, Repr

/-! ## The key-combination normalizer (`keySequenceFromKeyEvent`) -/

/-- Lines 51-62 of `keySequenceFromKeyEvent`: `keyInt` after the four conditional
additions `keyInt += Qt::SHIFT / CTRL / ALT / META`. -/
def keyIntWithModifiers (keyInt : Int) (modifiers : Nat) : Int :=
  let k1 := if modifiers &&& ShiftModifier ≠ 0 then wrapInt32 (keyInt + SHIFT) else keyInt
  let k2 := if modifiers &&& ControlModifier ≠ 0 then wrapInt32 (k1 + CTRL) else k1
  let k3 := if modifiers &&& AltModifier ≠ 0 then wrapInt32 (k2 + ALT) else k2
  let k4 := if modifiers &&& MetaModifier ≠ 0 then wrapInt32 (k3 + META) else k3
  k4

/-- The function `keySequenceFromKeyEvent` of `treeview.cpp`. -/
def keySequenceFromKeyEvent (keyEvent : QKeyEvent) : QKeySequence :=
  let keyInt := keyEvent.key
  if keyInt = Key_unknown then QKeySequence.empty
  else if keyInt = Key_Control ∨ keyInt = Key_Shift ∨ keyInt = Key_Alt ∨ keyInt = Key_Meta then
    QKeySequence.empty
  else QKeySequence.ofInt (keyIntWithModifiers keyInt keyEvent.modifiers)

/-- The exact (unbounded) integer sum that lines 51-62 aim at: the key plus the flag of
each of the four modifiers that is active. -/
def exactModifierSum (keyInt : Int) (modifiers : Nat) : Int :=
  keyInt
    + (if modifiers &&& ShiftModifier ≠ 0 then SHIFT else 0)
    + (if modifiers &&& ControlModifier ≠ 0 then CTRL else 0)
    + (if modifiers &&& AltModifier ≠ 0 then ALT else 0)
    + (if modifiers &&& MetaModifier ≠ 0 then META else 0)

/-! ## Collaborators of the dispatcher -/

/-- Identity of a node object: what a non-null `TreeItem*` points at. -/
abbrev TreeItem := Nat

/-- Qt `QAction`, reduced to its text and its `shortcut()`. -/
structure QAction where
  text : String
  shortcut : QKeySequence
deriving DecidableEq, Repr

/-- Qt `QMenu`, reduced to its `actions()`. -/
structure QMenu where
  actions : List QAction
deriving DecidableEq, Repr

/-- Qt `Qt::MouseButton`, reduced to the buttons a mouse press can carry. -/
inductive MouseButton where
  | LeftButton
  | RightButton
  | MiddleButton
  | OtherButton
deriving DecidableEq, Repr

/-- Qt `QMouseEvent`, reduced to `button()` and `pos()`. -/
structure QMouseEvent where
  button : MouseButton
  pos : QPoint
deriving DecidableEq, Repr

/-- One call that the dispatcher makes on a collaborator.  A dispatch is observed as the
list of its calls, in program order. -/
inductive Call where
  /-- The call `model()->getItemFromIndex(index)`. -/
  | getItemFromIndex (index : QModelIndex)
  /-- The call `item->isLocked()`. -/
  | isLocked (item : TreeItem)
  /-- The call `item->onClick(view)`. -/
  | onClick (item : TreeItem)
  /-- The call `item->onWheelClick(view)`. -/
  | onWheelClick (item : TreeItem)
  /-- The call `item->getContextMenu(view)`. -/
  | getContextMenu (item : TreeItem)
  /-- The call `expand(index)` on the view. -/
  | expand (index : QModelIndex)
  /-- The call `menu->exec(globalPos)`. -/
  | menuExec (menu : QMenu) (globalPos : QPoint)
  /-- The call `action->trigger()`. -/
  | trigger (action : QAction)
  /-- The call `QTreeView::keyPressEvent(event)`: default key handling. -/
  | baseKeyPressEvent (event : QKeyEvent)
  /-- The call `QTreeView::mousePressEvent(event)`: default mouse handling. -/
  | baseMousePressEvent (event : QMouseEvent)
  /-- The statement `LOG(DEBUG) << "Click on tree item: " << index.row()`. -/
  | logClick (row : Int)
deriving DecidableEq, Repr

/-- What a `TreeView` reads during one dispatch: the model behind `model()`, the answers
of the nodes, the current selection and the geometry of the widget. -/
structure TreeView where
  /-- The function `Model::getItemFromIndex`; `none` is `nullptr`. -/
  getItemFromIndex : QModelIndex → Option TreeItem
  /-- The method `TreeItem::isLocked`. -/
  isLocked : TreeItem → Bool
  /-- The value returned by `TreeItem::onClick`. -/
  onClick : TreeItem → Bool
  /-- The value returned by `TreeItem::getContextMenu`; `none` is a null shared pointer. -/
  getContextMenu : TreeItem → Option QMenu
  /-- Qt `QAbstractItemView::selectedIndexes()`. -/
  selectedIndexes : List QModelIndex
  /-- Qt `QAbstractItemView::indexAt`. -/
  indexAt : QPoint → QModelIndex
  /-- Qt `QWidget::mapToGlobal`. -/
  mapToGlobal : QPoint → QPoint
  /-- Qt `QCursor::pos()`. -/
  cursorPos : QPoint

/-! ## The dispatcher (`TreeView`) -/

/-- The method `TreeView::preProcessEvent`: the dispatch target (`none` is `nullptr`) and
the calls made to find it. -/
def preProcessEvent (v : TreeView) (index : QModelIndex) : Option TreeItem × List Call :=
  if !index.isValid then (none, [])
  else
    match v.getItemFromIndex index with
    | none => (none, [Call.getItemFromIndex index])
    | some item =>
      if v.isLocked item then (none, [Call.getItemFromIndex index, Call.isLocked item])
      else (some item, [Call.getItemFromIndex index, Call.isLocked item])

/-- The method `TreeView::processClick`. -/
def processClick (v : TreeView) (index : QModelIndex) : List Call :=
  match preProcessEvent v index with
  | (none, calls) => calls
  | (some item, calls) =>
    if v.onClick item then
      calls ++ [Call.logClick index.row, Call.onClick item, Call.expand index]
    else
      calls ++ [Call.logClick index.row, Call.onClick item]

/-- The method `TreeView::processWheelClick`. -/
def processWheelClick (v : TreeView) (index : QModelIndex) : List Call :=
  match preProcessEvent v index with
  | (none, calls) => calls
  | (some item, calls) => calls ++ [Call.onWheelClick item]

/-- The method `TreeView::processContextMenu`. -/
def processContextMenu (v : TreeView) (point : QPoint) : List Call :=
  if point.isNull || v.cursorPos.isNull then []
  else
    match preProcessEvent v (v.indexAt point) with
    | (none, calls) => calls
    | (some item, calls) =>
      match v.getContextMenu item with
      | none => calls ++ [Call.getContextMenu item]
      | some menu =>
        calls ++ [Call.getContextMenu item, Call.menuExec menu (v.mapToGlobal point)]

/-- Emission of the signal `clicked`: the constructor connects it to `processClick`
(line 23). -/
def clicked (v : TreeView) (index : QModelIndex) : List Call := processClick v index

/-- Emission of the signal `wheelClicked`: the constructor connects it to
`processWheelClick` (line 24). -/
def wheelClicked (v : TreeView) (index : QModelIndex) : List Call :=
  processWheelClick v index

/-- Emission of the signal `customContextMenuRequested`: the constructor connects it to
`processContextMenu` (line 25). -/
def customContextMenuRequested (v : TreeView) (point : QPoint) : List Call :=
  processContextMenu v point

/-- The method `TreeView::mousePressEvent`. -/
def mousePressEvent (v : TreeView) (event : QMouseEvent) : List Call :=
  (if event.button = MouseButton.MiddleButton then wheelClicked v (v.indexAt event.pos)
   else [])
    ++ [Call.baseMousePressEvent event]

/-- The `foreach` loop of `TreeView::keyPressEvent` (lines 92-99) together with the
statement after it: the first action with a non-empty shortcut that matches `key` is
triggered; without one the event goes to the default handling. -/
def scanActions (event : QKeyEvent) (key : QKeySequence) : List QAction → List Call
  | [] => [Call.baseKeyPressEvent event]
  | action :: rest =>
    if !action.shortcut.isEmpty && (action.shortcut.matchesSeq key).toBool then
      [Call.trigger action]
    else scanActions event key rest

/-- The method `TreeView::keyPressEvent`. -/
def keyPressEvent (v : TreeView) (event : QKeyEvent) : List Call :=
  match v.selectedIndexes with
  | [index] =>
    if event.key = Key_Return ∨ event.key = Key_Enter then clicked v index
    else
      let target := preProcessEvent v index
      let key := keySequenceFromKeyEvent event
      match target with
      | (none, calls) => calls
      | (some item, calls) =>
        match v.getContextMenu item with
        | none => calls ++ [Call.getContextMenu item]
        | some menu =>
          calls ++ [Call.getContextMenu item] ++ scanActions event key menu.actions
  | _ => [Call.baseKeyPressEvent event]

/-! ## Vocabulary of the properties -/

/-- A call of one of the three reacting capability methods of a node: `onClick`,
`onWheelClick` or `getContextMenu`. -/
def Call.isCapability : Call → Bool
  | Call.onClick _ => true
  | Call.onWheelClick _ => true
  | Call.getContextMenu _ => true
  | _ => false

/-- An expand request. -/
def Call.isExpand : Call → Bool
  | Call.expand _ => true
  | _ => false

/-- A menu display. -/
def Call.isMenuExec : Call → Bool
  | Call.menuExec _ _ => true
  | _ => false

/-- A triggered action. -/
def Call.isTrigger : Call → Bool
  | Call.trigger _ => true
  | _ => false

/-- A call of the default key handling. -/
def Call.isBaseKeyPress : Call → Bool
  | Call.baseKeyPressEvent _ => true
  | _ => false

/-- What the preprocessing gate keeps from a node it does not let through: a capability
call, an expand request or a menu display. -/
def Call.isGated (c : Call) : Bool := c.isCapability || c.isExpand || c.isMenuExec

/-- The handle does not lead to a dispatch target: it is invalid, or the model has no
node for it, or the node it resolves to is locked. -/
def gateClosed (v : TreeView) (index : QModelIndex) : Prop :=
  index.isValid = false ∨ v.getItemFromIndex index = none ∨
    ∃ item, v.getItemFromIndex index = some item ∧ v.isLocked item = true

/-- The key is one of the four modifier keys or `Key_unknown`. -/
def isLoneModifierOrUnknown (key : Int) : Prop :=
  key = Key_unknown ∨ key = Key_Control ∨ key = Key_Shift ∨ key = Key_Alt ∨ key = Key_Meta

instance (key : Int) : Decidable (isLoneModifierOrUnknown key) := by
  unfold isLoneModifierOrUnknown; infer_instance

/-- Spec-side composition of a key with modifier flags: the bitwise OR of the key with
the flag of each of the four modifiers that is active in `modifiers`. -/
def orWithActiveModifiers (key : Nat) (modifiers : Nat) : Nat :=
  key
    ||| (if modifiers &&& ShiftModifier ≠ 0 then 0x02000000 else 0)
    ||| (if modifiers &&& ControlModifier ≠ 0 then 0x04000000 else 0)
    ||| (if modifiers &&& AltModifier ≠ 0 then 0x08000000 else 0)
    ||| (if modifiers &&& MetaModifier ≠ 0 then 0x10000000 else 0)

/-! ## Sample surroundings, used to evaluate the dispatcher -/

/-- A valid handle: row 0, column 0 of model 1. -/
def sampleIndex : QModelIndex := ⟨0, 0, 7, some 1⟩

/-- The action `Reload`, bound to the key `A` (0x41). -/
def reloadAction : QAction := ⟨"Reload", QKeySequence.ofInt 0x41⟩

/-- The action `Rename`, bound to the key `A` (0x41) as well. -/
def renameAction : QAction := ⟨"Rename", QKeySequence.ofInt 0x41⟩

/-- The action `Copy`, without a shortcut. -/
def copyAction : QAction := ⟨"Copy", QKeySequence.empty⟩

/-- A menu that starts with an action without shortcut, followed by two actions bound
to the same key. -/
def sampleMenu : QMenu := ⟨[copyAction, reloadAction, renameAction]⟩

/-- A view whose single selected handle resolves to the unlocked node 3, which answers
`true` to `onClick` and offers `sampleMenu`; the cursor is at (40, 40). -/
def sampleView : TreeView where
  getItemFromIndex := fun i => if i = sampleIndex then some 3 else none
  isLocked := fun _ => false
  onClick := fun _ => true
  getContextMenu := fun _ => some sampleMenu
  selectedIndexes := [sampleIndex]
  indexAt := fun _ => sampleIndex
  mapToGlobal := fun p => ⟨p.x + 100, p.y + 100⟩
  cursorPos := ⟨40, 40⟩

/-- The view `sampleView` with every node locked. -/
def lockedView : TreeView := { sampleView with isLocked := fun _ => true }

/-- The view `sampleView` with nodes that return a null menu. -/
def menulessView : TreeView := { sampleView with getContextMenu := fun _ => none }

/-- The view `sampleView` with nodes that return a menu without any action. -/
def actionlessView : TreeView := { sampleView with getContextMenu := fun _ => some ⟨[]⟩ }

/-- The view `sampleView` while `QCursor::pos()` is the origin of the screen. -/
def cursorAtOriginView : TreeView := { sampleView with cursorPos := ⟨0, 0⟩ }

/-- A press of the key `Down` (0x01000015) without modifiers. -/
def downKeyEvent : QKeyEvent := ⟨0x01000015, 0, ""⟩

/-- A press of the key `A` (0x41) without modifiers. -/
def letterKeyEvent : QKeyEvent := ⟨0x41, 0, "a"⟩

/-- A press of the Shift key alone, with the Shift flag set. -/
def shiftKeyEvent : QKeyEvent := ⟨Key_Shift, ShiftModifier, ""⟩

/-- A press of the Return key without modifiers. -/
def returnKeyEvent : QKeyEvent := ⟨Key_Return, 0, ""⟩

/-! ## Auxiliary facts: bit masks and the 32-bit addition -/

theorem and_two_pow_eq (m i : Nat) : m &&& 2 ^ i = if m.testBit i then 2 ^ i else 0 := by
  apply Nat.eq_of_testBit_eq
  intro j
  rw [Nat.testBit_and, Nat.testBit_two_pow]
  by_cases hij : i = j
  · subst hij
    cases hb : m.testBit i <;> simp [Nat.testBit_two_pow]
  · cases hb : m.testBit i <;> simp [Nat.testBit_two_pow, hij]

theorem and_mask_eq (m : Nat) :
    m &&& fourModifierMask
      = (m &&& ShiftModifier) + (m &&& ControlModifier) + (m &&& AltModifier)
          + (m &&& MetaModifier) := by
  have hmask : fourModifierMask = 2 ^ 25 ||| 2 ^ 26 ||| 2 ^ 27 ||| 2 ^ 28 := by decide
  have h25 : ShiftModifier = 2 ^ 25 := by decide
  have h26 : ControlModifier = 2 ^ 26 := by decide
  have h27 : AltModifier = 2 ^ 27 := by decide
  have h28 : MetaModifier = 2 ^ 28 := by decide
  rw [hmask, h25, h26, h27, h28, Nat.and_or_distrib_left, Nat.and_or_distrib_left,
    Nat.and_or_distrib_left]
  simp only [and_two_pow_eq]
  cases m.testBit 25 <;> cases m.testBit 26 <;> cases m.testBit 27 <;> cases m.testBit 28 <;>
    decide

theorem active_flag_eq (m i : Nat) : (if m &&& 2 ^ i ≠ 0 then 2 ^ i else 0) = m &&& 2 ^ i := by
  rw [and_two_pow_eq]
  cases m.testBit i <;> simp

theorem exactModifierSum_eq (key : Int) (m : Nat) :
    exactModifierSum key m = key + ((m &&& fourModifierMask : Nat) : Int) := by
  have h25 := active_flag_eq m 25
  have h26 := active_flag_eq m 26
  have h27 := active_flag_eq m 27
  have h28 := active_flag_eq m 28
  rw [and_mask_eq]
  unfold exactModifierSum ShiftModifier ControlModifier AltModifier MetaModifier SHIFT CTRL ALT
    META
  norm_num at h25 h26 h27 h28 ⊢
  split_ifs at h25 h26 h27 h28 ⊢ <;> omega

theorem wrapInt32_keyIntWithModifiers (key : Int) (m : Nat) :
    wrapInt32 (keyIntWithModifiers key m) = wrapInt32 (exactModifierSum key m) := by
  unfold keyIntWithModifiers exactModifierSum wrapInt32 SHIFT CTRL ALT META
  dsimp only
  split_ifs <;> omega

theorem keyIntWithModifiers_eq_exact (key : Int) (m : Nat)
    (hlo : -2147483648 ≤ key) (hhi : exactModifierSum key m < 2147483648) :
    keyIntWithModifiers key m = exactModifierSum key m := by
  unfold keyIntWithModifiers exactModifierSum wrapInt32 SHIFT CTRL ALT META at *
  dsimp only at *
  split_ifs at * <;> omega

theorem ofInt_injective (a b : Int) (h : QKeySequence.ofInt a = QKeySequence.ofInt b) :
    a = b := by
  unfold QKeySequence.ofInt at h
  split_ifs at h with ha hb hb
  · omega
  · simp at h
  · simp at h
  · simpa using h


theorem and_mask_eq_flags (m : Nat) :
    m &&& fourModifierMask
      = (if m &&& ShiftModifier ≠ 0 then 0x02000000 else 0)
        + (if m &&& ControlModifier ≠ 0 then 0x04000000 else 0)
        + (if m &&& AltModifier ≠ 0 then 0x08000000 else 0)
        + (if m &&& MetaModifier ≠ 0 then 0x10000000 else 0) := by
  have h25 : (if m &&& ShiftModifier ≠ 0 then 0x02000000 else 0) = m &&& ShiftModifier :=
    active_flag_eq m 25
  have h26 : (if m &&& ControlModifier ≠ 0 then 0x04000000 else 0) = m &&& ControlModifier :=
    active_flag_eq m 26
  have h27 : (if m &&& AltModifier ≠ 0 then 0x08000000 else 0) = m &&& AltModifier :=
    active_flag_eq m 27
  have h28 : (if m &&& MetaModifier ≠ 0 then 0x10000000 else 0) = m &&& MetaModifier :=
    active_flag_eq m 28
  rw [h25, h26, h27, h28, and_mask_eq]

theorem or_flags_eq_add (k : Nat) (hk : k < 2 ^ 25) (p q r s : Prop) [Decidable p]
    [Decidable q] [Decidable r] [Decidable s] :
    k ||| (if p then 0x02000000 else 0) ||| (if q then 0x04000000 else 0)
        ||| (if r then 0x08000000 else 0) ||| (if s then 0x10000000 else 0)
      = k + ((if p then 0x02000000 else 0) + (if q then 0x04000000 else 0)
        + (if r then 0x08000000 else 0) + (if s then 0x10000000 else 0)) := by
  have hor : ∀ c : Nat, c % 2 ^ 25 = 0 → k ||| c = k + c := by
    intro c hc
    have hc2 : c = 2 ^ 25 * (c / 2 ^ 25) := by
      have := Nat.div_add_mod c (2 ^ 25)
      omega
    rw [hc2, Nat.lor_comm, ← Nat.mul_add_lt_is_or hk, Nat.add_comm]
  simp only [Nat.lor_assoc]
  by_cases hp : p <;> by_cases hq : q <;> by_cases hr : r <;> by_cases hs : s <;>
    simp only [hp, hq, hr, hs, if_true, if_false] <;>
    exact hor _ (by decide)

theorem add_eq_or_of_and_eq_zero (k c : Nat) (hk : k < 2 ^ 31) (hc : c < 2 ^ 31)
    (h : k &&& c = 0) : k + c = k ||| c := by
  have hk32 : k % 2 ^ 32 = k := Nat.mod_eq_of_lt (by omega)
  have hc32 : c % 2 ^ 32 = c := Nat.mod_eq_of_lt (by omega)
  have hbv : BitVec.ofNat 32 k &&& BitVec.ofNat 32 c = 0#32 := by
    apply BitVec.eq_of_toNat_eq
    rw [BitVec.toNat_and, BitVec.toNat_ofNat, BitVec.toNat_ofNat, hk32, hc32, h]
    rfl
  have hadd := congrArg BitVec.toNat
    (BitVec.add_eq_or_of_and_eq_zero (BitVec.ofNat 32 k) (BitVec.ofNat 32 c) hbv)
  rw [BitVec.toNat_add, BitVec.toNat_or, BitVec.toNat_ofNat, BitVec.toNat_ofNat, hk32, hc32]
    at hadd
  rw [← hadd]
  exact (Nat.mod_eq_of_lt (by omega)).symm

theorem orWithActiveModifiers_eq_or_mask (k m : Nat) :
    orWithActiveModifiers k m = k ||| (m &&& fourModifierMask) := by
  have h0 := or_flags_eq_add 0 (by decide) (m &&& ShiftModifier ≠ 0)
    (m &&& ControlModifier ≠ 0) (m &&& AltModifier ≠ 0) (m &&& MetaModifier ≠ 0)
  rw [Nat.zero_add, ← and_mask_eq_flags, Nat.zero_or] at h0
  unfold orWithActiveModifiers
  rw [← h0]
  simp only [Nat.lor_assoc]

theorem orWithActiveModifiers_eq_add (k m : Nat) (hk : k < 2 ^ 31)
    (hbits : k &&& fourModifierMask = 0) :
    orWithActiveModifiers k m = k + (m &&& fourModifierMask) := by
  have hc : m &&& fourModifierMask < 2 ^ 31 :=
    Nat.lt_of_le_of_lt Nat.and_le_right (by decide)
  have hdisj : k &&& (m &&& fourModifierMask) = 0 := by
    rw [Nat.and_comm m, ← Nat.and_assoc, hbits, Nat.zero_and]
  rw [orWithActiveModifiers_eq_or_mask, add_eq_or_of_and_eq_zero k _ hk hc hdisj]

theorem no_modifier_bit_below_mask (k : Nat) (hk : k < 2 ^ 25) :
    k &&& fourModifierMask = 0 := by
  have hmask : fourModifierMask = 2 ^ 25 * 15 := by decide
  apply Nat.eq_of_testBit_eq
  intro i
  rw [Nat.testBit_and, Nat.zero_testBit, hmask]
  by_cases hi : i < 25
  · have : (2 ^ 25 * 15).testBit i = false := by
      rw [Nat.testBit_mul_pow_two]
      simp [hi]
    rw [this, Bool.and_false]
  · have : k.testBit i = false := by
      apply Nat.testBit_lt_two_pow
      calc k < 2 ^ 25 := hk
        _ ≤ 2 ^ i := Nat.pow_le_pow_right (by decide) (by omega)
    rw [this, Bool.false_and]

theorem flag_testBit (p : Prop) [Decidable p] (n i : Nat) :
    (if p then 2 ^ n else 0).testBit i = (decide p && decide (n = i)) := by
  by_cases hp : p <;> simp [hp, Nat.testBit_two_pow]

theorem orWithActiveModifiers_testBit (k m i : Nat) :
    (orWithActiveModifiers k m).testBit i
      = (k.testBit i
          || (decide (m &&& ShiftModifier ≠ 0) && decide (25 = i))
          || (decide (m &&& ControlModifier ≠ 0) && decide (26 = i))
          || (decide (m &&& AltModifier ≠ 0) && decide (27 = i))
          || (decide (m &&& MetaModifier ≠ 0) && decide (28 = i))) := by
  have h25 := flag_testBit (m &&& ShiftModifier ≠ 0) 25 i
  have h26 := flag_testBit (m &&& ControlModifier ≠ 0) 26 i
  have h27 := flag_testBit (m &&& AltModifier ≠ 0) 27 i
  have h28 := flag_testBit (m &&& MetaModifier ≠ 0) 28 i
  unfold orWithActiveModifiers
  rw [Nat.testBit_or, Nat.testBit_or, Nat.testBit_or, Nat.testBit_or]
  exact congrArg₂ (· || ·) (congrArg₂ (· || ·) (congrArg₂ (· || ·)
    (congrArg₂ (· || ·) rfl h25) h26) h27) h28

/-! ## Properties of the normalizer -/

/-- C3: `keySequenceFromKeyEvent` returns the empty key sequence whenever the key is
`Key_unknown`, `Key_Control`, `Key_Shift`, `Key_Alt` or `Key_Meta`, whatever the modifier
flags and the produced text are. -/
theorem keySequence_of_lone_modifier_is_empty (modifiers : Nat) (text : String) :
    keySequenceFromKeyEvent ⟨Key_unknown, modifiers, text⟩ = QKeySequence.empty
    ∧ keySequenceFromKeyEvent ⟨Key_Control, modifiers, text⟩ = QKeySequence.empty
    ∧ keySequenceFromKeyEvent ⟨Key_Shift, modifiers, text⟩ = QKeySequence.empty
    ∧ keySequenceFromKeyEvent ⟨Key_Alt, modifiers, text⟩ = QKeySequence.empty
    ∧ keySequenceFromKeyEvent ⟨Key_Meta, modifiers, text⟩ = QKeySequence.empty
    ∧ QKeySequence.empty.isEmpty = true := by
  refine ⟨?_, ?_, ?_, ?_, ?_, rfl⟩ <;> simp [keySequenceFromKeyEvent]

theorem keySequence_of_base_key (key : Int) (modifiers : Nat) (text : String)
    (hkey : ¬ isLoneModifierOrUnknown key) :
    keySequenceFromKeyEvent ⟨key, modifiers, text⟩
      = QKeySequence.ofInt (keyIntWithModifiers key modifiers) := by
  unfold isLoneModifierOrUnknown at hkey
  unfold keySequenceFromKeyEvent
  dsimp only
  rw [if_neg (fun h => hkey (Or.inl h)), if_neg (fun h => hkey (Or.inr h))]

theorem keySequence_ne_of_masked_ne (key : Int) (m1 m2 : Nat) (text1 text2 : String)
    (hkey : ¬ isLoneModifierOrUnknown key)
    (hne : m1 &&& fourModifierMask ≠ m2 &&& fourModifierMask) :
    keySequenceFromKeyEvent ⟨key, m1, text1⟩ ≠ keySequenceFromKeyEvent ⟨key, m2, text2⟩ := by
  rw [keySequence_of_base_key key m1 text1 hkey, keySequence_of_base_key key m2 text2 hkey]
  intro heq
  have hint := ofInt_injective _ _ heq
  have hw := congrArg wrapInt32 hint
  rw [wrapInt32_keyIntWithModifiers, wrapInt32_keyIntWithModifiers, exactModifierSum_eq,
    exactModifierSum_eq] at hw
  have hb1 : m1 &&& fourModifierMask ≤ fourModifierMask := Nat.and_le_right
  have hb2 : m2 &&& fourModifierMask ≤ fourModifierMask := Nat.and_le_right
  unfold wrapInt32 at hw
  have hmask : fourModifierMask = 503316480 := rfl
  generalize m1 &&& fourModifierMask = a at hw hb1 hne
  generalize m2 &&& fourModifierMask = b at hw hb2 hne
  rw [hmask] at hb1 hb2
  omega

/-- C4: for a key that is neither `Key_unknown` nor one of the four modifier keys, two
different subsets of the modifiers Shift, Control, Alt, Meta give different key
sequences; in particular the sequences for Shift, for no modifier and for Shift+Control
are pairwise distinct. -/
theorem keySequence_injective_in_modifier_set (key : Int)
    (hkey : ¬ isLoneModifierOrUnknown key) :
    (∀ (m1 m2 : Nat) (text1 text2 : String),
        m1 &&& fourModifierMask = m1 → m2 &&& fourModifierMask = m2 → m1 ≠ m2 →
        keySequenceFromKeyEvent ⟨key, m1, text1⟩ ≠ keySequenceFromKeyEvent ⟨key, m2, text2⟩)
    ∧ (∀ text : String,
        keySequenceFromKeyEvent ⟨key, ShiftModifier, text⟩
          ≠ keySequenceFromKeyEvent ⟨key, 0, text⟩
        ∧ keySequenceFromKeyEvent ⟨key, 0, text⟩
          ≠ keySequenceFromKeyEvent ⟨key, ShiftModifier ||| ControlModifier, text⟩
        ∧ keySequenceFromKeyEvent ⟨key, ShiftModifier, text⟩
          ≠ keySequenceFromKeyEvent ⟨key, ShiftModifier ||| ControlModifier, text⟩) := by
  refine ⟨?_, ?_⟩
  · intro m1 m2 text1 text2 h1 h2 hne
    apply keySequence_ne_of_masked_ne key m1 m2 text1 text2 hkey
    rw [h1, h2]
    exact hne
  · intro text
    refine ⟨?_, ?_, ?_⟩ <;>
      exact keySequence_ne_of_masked_ne key _ _ text text hkey (by decide)

/-- Witness for C4 at the key `A` (0x41). -/
theorem keySequence_injective_in_modifier_set_witness :
    ¬ isLoneModifierOrUnknown 0x41
    ∧ keySequenceFromKeyEvent ⟨0x41, ShiftModifier, "A"⟩
        ≠ keySequenceFromKeyEvent ⟨0x41, ShiftModifier ||| ControlModifier, "A"⟩ :=
  ⟨by decide,
   (keySequence_injective_in_modifier_set 0x41 (by decide)).1 ShiftModifier
     (ShiftModifier ||| ControlModifier) "A" "A" (by decide) (by decide) (by decide)⟩

/-- C5: for a key code `k`, that is a non-negative `int` with none of the four modifier
bits 25 to 28 set (every value of `Qt::Key` is one, all of them being below 0x02000000),
that is neither `Key_unknown` nor a modifier key, and for every set of modifier flags, the
integer that `keySequenceFromKeyEvent` builds by addition is the bitwise OR of `k` with
the flag of each active modifier: bits 25 to 28 are set exactly when Shift, Control, Alt,
Meta are active, every other bit is the bit of `k`, and the exact sum stays inside the
signed 32-bit range, so that no addition wraps. -/
theorem keySequence_adds_as_bitwise_or (k modifiers : Nat) (text : String)
    (hint : k < 0x80000000) (hbits : k &&& fourModifierMask = 0)
    (hkey : ¬ isLoneModifierOrUnknown (k : Int)) :
    keySequenceFromKeyEvent ⟨(k : Int), modifiers, text⟩
        = QKeySequence.ofInt ((orWithActiveModifiers k modifiers : Nat) : Int)
    ∧ keyIntWithModifiers (k : Int) modifiers = ((orWithActiveModifiers k modifiers : Nat) : Int)
    ∧ (orWithActiveModifiers k modifiers).testBit 25 = decide (modifiers &&& ShiftModifier ≠ 0)
    ∧ (orWithActiveModifiers k modifiers).testBit 26 = decide (modifiers &&& ControlModifier ≠ 0)
    ∧ (orWithActiveModifiers k modifiers).testBit 27 = decide (modifiers &&& AltModifier ≠ 0)
    ∧ (orWithActiveModifiers k modifiers).testBit 28 = decide (modifiers &&& MetaModifier ≠ 0)
    ∧ (∀ i : Nat, i ≠ 25 → i ≠ 26 → i ≠ 27 → i ≠ 28 →
        (orWithActiveModifiers k modifiers).testBit i = k.testBit i)
    ∧ keyIntWithModifiers (k : Int) modifiers = exactModifierSum (k : Int) modifiers
    ∧ 0 ≤ exactModifierSum (k : Int) modifiers
    ∧ exactModifierSum (k : Int) modifiers < 2147483648 := by
  have hk : k < 2 ^ 31 := hint
  have hsum := exactModifierSum_eq (k : Int) modifiers
  have hor := orWithActiveModifiers_eq_add k modifiers hk hbits
  have hlt : orWithActiveModifiers k modifiers < 2 ^ 31 := by
    rw [orWithActiveModifiers_eq_or_mask]
    exact Nat.or_lt_two_pow hk (Nat.lt_of_le_of_lt Nat.and_le_right (by decide))
  have hlo : 0 ≤ exactModifierSum (k : Int) modifiers := by rw [hsum]; omega
  have hhi : exactModifierSum (k : Int) modifiers < 2147483648 := by rw [hsum]; omega
  have hexact := keyIntWithModifiers_eq_exact (k : Int) modifiers (by omega) hhi
  have hres : keyIntWithModifiers (k : Int) modifiers
      = ((orWithActiveModifiers k modifiers : Nat) : Int) := by
    rw [hexact, hsum, hor]; push_cast; rfl
  have hbit : ∀ j : Nat, fourModifierMask.testBit j = true → k.testBit j = false := by
    intro j hj
    have := congrArg (fun n => Nat.testBit n j) hbits
    simpa [Nat.testBit_and, hj] using this
  refine ⟨?_, hres, ?_, ?_, ?_, ?_, ?_, hexact, hlo, hhi⟩
  · rw [keySequence_of_base_key (k : Int) modifiers text hkey, hres]
  · rw [orWithActiveModifiers_testBit, hbit 25 (by decide)]; simp
  · rw [orWithActiveModifiers_testBit, hbit 26 (by decide)]; simp
  · rw [orWithActiveModifiers_testBit, hbit 27 (by decide)]; simp
  · rw [orWithActiveModifiers_testBit, hbit 28 (by decide)]; simp
  · intro i h25 h26 h27 h28
    rw [orWithActiveModifiers_testBit]
    simp [Ne.symm h25, Ne.symm h26, Ne.symm h27, Ne.symm h28]

/-- Witness for C5 at the key `A` (0x41) with Shift and Control held. -/
theorem keySequence_adds_as_bitwise_or_witness :
    (0x41 : Nat) < 0x80000000 ∧ 0x41 &&& fourModifierMask = 0
    ∧ ¬ isLoneModifierOrUnknown ((0x41 : Nat) : Int)
    ∧ keySequenceFromKeyEvent ⟨((0x41 : Nat) : Int), 0x06000000, "A"⟩
        = QKeySequence.ofInt ((orWithActiveModifiers 0x41 0x06000000 : Nat) : Int) :=
  ⟨by decide, by decide, by decide,
   (keySequence_adds_as_bitwise_or 0x41 0x06000000 "A" (by decide) (by decide)
     (by decide)).1⟩

/-- Every value below 0x02000000, so every value of `Qt::Key`, is a key code in the sense
of C5: non-negative, inside the `int` range and without any of the four modifier bits. -/
theorem qt_key_range_is_key_code (k : Nat) (hk : k < 0x02000000) :
    k < 0x80000000 ∧ k &&& fourModifierMask = 0 :=
  ⟨Nat.lt_trans hk (by decide), no_modifier_bit_below_mask k hk⟩

/-- On a value that already carries one of the four modifier bits the addition is no
bitwise OR: a value with the Shift bit, pressed with Shift, loses that bit to a carry, and
the largest `int` wraps around. -/
theorem keyIntWithModifiers_outside_key_range :
    keyIntWithModifiers 0x02000041 ShiftModifier = 0x04000041
    ∧ orWithActiveModifiers 0x02000041 ShiftModifier = 0x02000041
    ∧ keyIntWithModifiers 0x7fffffff ShiftModifier = -2113929217 := by
  decide

/-! ## Auxiliary facts: the gate, the matcher and the key handler -/

theorem preProcessEvent_of_closed (v : TreeView) (index : QModelIndex)
    (hclosed : gateClosed v index) :
    (preProcessEvent v index).1 = none := by
  unfold preProcessEvent
  rcases hclosed with h | h | ⟨item, h, hl⟩
  · simp [h]
  · by_cases hv : index.isValid = true <;> simp [hv, h]
  · by_cases hv : index.isValid = true <;> simp [hv, h, hl]

theorem preProcessEvent_calls (v : TreeView) (index : QModelIndex) :
    ∀ c ∈ (preProcessEvent v index).2,
      c = Call.getItemFromIndex index
        ∨ ∃ item, v.getItemFromIndex index = some item ∧ c = Call.isLocked item := by
  intro c hc
  unfold preProcessEvent at hc
  by_cases hv : index.isValid = true
  · cases hget : v.getItemFromIndex index with
    | none =>
      simp [hv, hget] at hc
      exact Or.inl hc
    | some item =>
      by_cases hl : v.isLocked item = true
      · simp [hv, hget, hl] at hc
        rcases hc with hc | hc
        · exact Or.inl hc
        · exact Or.inr ⟨item, rfl, hc⟩
      · simp [hv, hget, hl] at hc
        rcases hc with hc | hc
        · exact Or.inl hc
        · exact Or.inr ⟨item, rfl, hc⟩
  · simp [hv] at hc

theorem preProcessEvent_calls_not_gated (v : TreeView) (index : QModelIndex) :
    ∀ c ∈ (preProcessEvent v index).2,
      c.isGated = false ∧ c.isTrigger = false ∧ c.isBaseKeyPress = false := by
  intro c hc
  rcases preProcessEvent_calls v index c hc with h | ⟨item, _, h⟩ <;> subst h <;>
    exact ⟨rfl, rfl, rfl⟩

theorem preProcessEvent_eq_some_iff (v : TreeView) (index : QModelIndex) (item : TreeItem) :
    (preProcessEvent v index).1 = some item
      ↔ (index.isValid = true ∧ v.getItemFromIndex index = some item
          ∧ v.isLocked item = false) := by
  unfold preProcessEvent
  by_cases hv : index.isValid = true
  · cases hget : v.getItemFromIndex index with
    | none => simp [hv]
    | some item2 =>
      by_cases hl : v.isLocked item2 = true
      · simp only [hv, hl, Bool.not_true, Bool.false_eq_true, if_false, if_true, true_and]
        constructor
        · intro h; exact absurd h (by simp)
        · rintro ⟨h1, h2⟩
          have : item2 = item := Option.some.inj h1
          subst this
          rw [hl] at h2
          exact absurd h2 (by simp)
      · have hl2 : v.isLocked item2 = false := by simpa using hl
        simp only [hv, hl2, Bool.not_true, Bool.false_eq_true, if_false, true_and]
        constructor
        · intro h
          have : item2 = item := Option.some.inj h
          subst this
          exact ⟨rfl, hl2⟩
        · rintro ⟨h1, _⟩
          exact h1
  · simp [hv]

theorem preProcessEvent_of_open (v : TreeView) (index : QModelIndex) (item : TreeItem)
    (hopen : (preProcessEvent v index).1 = some item) :
    preProcessEvent v index
      = (some item, [Call.getItemFromIndex index, Call.isLocked item]) := by
  obtain ⟨hv, hget, hl⟩ := (preProcessEvent_eq_some_iff v index item).1 hopen
  unfold preProcessEvent
  simp [hv, hget, hl]

theorem processClick_of_closed (v : TreeView) (index : QModelIndex)
    (hclosed : (preProcessEvent v index).1 = none) :
    processClick v index = (preProcessEvent v index).2 := by
  unfold processClick
  cases hp : preProcessEvent v index with
  | mk target calls =>
    rw [hp] at hclosed
    simp only at hclosed
    subst hclosed
    rfl

theorem processWheelClick_of_closed (v : TreeView) (index : QModelIndex)
    (hclosed : (preProcessEvent v index).1 = none) :
    processWheelClick v index = (preProcessEvent v index).2 := by
  unfold processWheelClick
  cases hp : preProcessEvent v index with
  | mk target calls =>
    rw [hp] at hclosed
    simp only at hclosed
    subst hclosed
    rfl

theorem processContextMenu_of_closed (v : TreeView) (point : QPoint)
    (hclosed : (preProcessEvent v (v.indexAt point)).1 = none) :
    processContextMenu v point = []
      ∨ processContextMenu v point = (preProcessEvent v (v.indexAt point)).2 := by
  unfold processContextMenu
  by_cases hnull : (point.isNull || v.cursorPos.isNull) = true
  · left
    rw [if_pos hnull]
  · right
    rw [if_neg hnull]
    cases hp : preProcessEvent v (v.indexAt point) with
    | mk target calls =>
      rw [hp] at hclosed
      simp only at hclosed
      subst hclosed
      rfl

theorem keyPressEvent_single (v : TreeView) (event : QKeyEvent) (index : QModelIndex)
    (hsel : v.selectedIndexes = [index]) :
    keyPressEvent v event
      = if event.key = Key_Return ∨ event.key = Key_Enter then processClick v index
        else
          match preProcessEvent v index with
          | (none, calls) => calls
          | (some item, calls) =>
            match v.getContextMenu item with
            | none => calls ++ [Call.getContextMenu item]
            | some menu =>
              calls ++ [Call.getContextMenu item]
                ++ scanActions event (keySequenceFromKeyEvent event) menu.actions := by
  unfold keyPressEvent clicked
  rw [hsel]

theorem keyPressEvent_not_single (v : TreeView) (event : QKeyEvent)
    (hsel : v.selectedIndexes.length ≠ 1) :
    keyPressEvent v event = [Call.baseKeyPressEvent event] := by
  unfold keyPressEvent
  match hs : v.selectedIndexes with
  | [] => rfl
  | [index] => rw [hs] at hsel; exact absurd rfl hsel
  | _ :: _ :: _ => rfl

theorem keyPressEvent_of_closed (v : TreeView) (event : QKeyEvent) (index : QModelIndex)
    (hsel : v.selectedIndexes = [index])
    (hclosed : (preProcessEvent v index).1 = none) :
    keyPressEvent v event = (preProcessEvent v index).2 := by
  rw [keyPressEvent_single v event index hsel, processClick_of_closed v index hclosed]
  cases hp : preProcessEvent v index with
  | mk target calls =>
    rw [hp] at hclosed
    simp only at hclosed
    subst hclosed
    simp

theorem processClick_of_open (v : TreeView) (index : QModelIndex) (item : TreeItem)
    (hopen : (preProcessEvent v index).1 = some item) :
    processClick v index
      = [Call.getItemFromIndex index, Call.isLocked item, Call.logClick index.row,
          Call.onClick item] ++ (if v.onClick item then [Call.expand index] else []) := by
  unfold processClick
  rw [preProcessEvent_of_open v index item hopen]
  by_cases hc : v.onClick item = true <;> simp [hc]

theorem keySequence_count_le_one (event : QKeyEvent) :
    (keySequenceFromKeyEvent event).count ≤ 1 := by
  unfold keySequenceFromKeyEvent QKeySequence.ofInt QKeySequence.empty QKeySequence.count
  dsimp only
  split_ifs <;> simp

theorem matchesSeq_iff_eq (s key : QKeySequence) (hs : s.isEmpty = false)
    (hkey : key.count ≤ 1) :
    (s.matchesSeq key).toBool = true ↔ s = key := by
  obtain ⟨ks⟩ := s
  obtain ⟨kk⟩ := key
  unfold QKeySequence.matchesSeq QKeySequence.count
  simp only [QKeySequence.isEmpty, QKeySequence.count] at hs hkey
  match ks, kk, hs, hkey with
  | [], _, hs, _ => simp at hs
  | _ :: _, [], _, _ => simp [SequenceMatch.toBool]
  | [y], [x], _, _ =>
    by_cases hxy : y = x <;> simp [SequenceMatch.toBool, hxy]
  | _ :: _ :: _, [x], _, _ => simp [SequenceMatch.toBool]
  | _ :: _, _ :: _ :: _, _, hkey => simp at hkey

theorem shortcut_condition_iff (action : QAction) (event : QKeyEvent) :
    (!action.shortcut.isEmpty
        && (action.shortcut.matchesSeq (keySequenceFromKeyEvent event)).toBool) = true
      ↔ (action.shortcut.isEmpty = false
          ∧ action.shortcut = keySequenceFromKeyEvent event) := by
  cases hs : action.shortcut.isEmpty with
  | true => simp
  | false =>
    simp only [Bool.not_false, Bool.true_and, true_and]
    exact matchesSeq_iff_eq _ _ hs (keySequence_count_le_one event)

theorem scanActions_first_match (event : QKeyEvent) (key : QKeySequence)
    (pre post : List QAction) (action : QAction)
    (hpre : ∀ b ∈ pre, (!b.shortcut.isEmpty && (b.shortcut.matchesSeq key).toBool) = false)
    (hact : (!action.shortcut.isEmpty && (action.shortcut.matchesSeq key).toBool) = true) :
    scanActions event key (pre ++ action :: post) = [Call.trigger action] := by
  induction pre with
  | nil =>
    show scanActions event key (action :: post) = _
    unfold scanActions
    rw [if_pos hact]
  | cons b rest ih =>
    show scanActions event key (b :: (rest ++ action :: post)) = _
    unfold scanActions
    have hb := hpre b (List.mem_cons_self b rest)
    rw [if_neg (by rw [hb]; simp)]
    exact ih (fun c hc => hpre c (List.mem_cons_of_mem b hc))

theorem scanActions_no_match (event : QKeyEvent) (key : QKeySequence)
    (actions : List QAction)
    (hnone : ∀ b ∈ actions,
      (!b.shortcut.isEmpty && (b.shortcut.matchesSeq key).toBool) = false) :
    scanActions event key actions = [Call.baseKeyPressEvent event] := by
  induction actions with
  | nil => rfl
  | cons b rest ih =>
    unfold scanActions
    have hb := hnone b (List.mem_cons_self b rest)
    rw [if_neg (by rw [hb]; simp)]
    exact ih (fun c hc => hnone c (List.mem_cons_of_mem b hc))

theorem nonempty_never_matches_empty (s : QKeySequence) :
    (!s.isEmpty && (s.matchesSeq QKeySequence.empty).toBool) = false := by
  obtain ⟨ks⟩ := s
  cases ks with
  | nil => rfl
  | cons k rest =>
    simp [QKeySequence.isEmpty, QKeySequence.matchesSeq, QKeySequence.count,
      QKeySequence.empty, SequenceMatch.toBool]

theorem keySequence_of_lone_modifier (event : QKeyEvent)
    (hkey : isLoneModifierOrUnknown event.key) :
    keySequenceFromKeyEvent event = QKeySequence.empty := by
  unfold keySequenceFromKeyEvent
  dsimp only
  by_cases hu : event.key = Key_unknown
  · rw [if_pos hu]
  · rw [if_neg hu, if_pos]
    unfold isLoneModifierOrUnknown at hkey
    rcases hkey with h | h
    · exact absurd h hu
    · exact h

theorem processContextMenu_of_null (v : TreeView) (point : QPoint)
    (hnull : point.isNull = true ∨ v.cursorPos.isNull = true) :
    processContextMenu v point = [] := by
  unfold processContextMenu
  rw [if_pos (by simpa using hnull)]

theorem processContextMenu_of_menu (v : TreeView) (point : QPoint) (item : TreeItem)
    (menu : QMenu) (hp : point.isNull = false) (hcur : v.cursorPos.isNull = false)
    (hgate : (preProcessEvent v (v.indexAt point)).1 = some item)
    (hmenu : v.getContextMenu item = some menu) :
    processContextMenu v point
      = [Call.getItemFromIndex (v.indexAt point), Call.isLocked item,
          Call.getContextMenu item, Call.menuExec menu (v.mapToGlobal point)] := by
  unfold processContextMenu
  rw [if_neg (by simp [hp, hcur]), preProcessEvent_of_open v _ item hgate]
  simp only [hmenu]
  rfl

theorem processContextMenu_exec_origin (v : TreeView) (point : QPoint)
    (hexec : ∃ c ∈ processContextMenu v point, c.isMenuExec = true) :
    point.isNull = false ∧ v.cursorPos.isNull = false
      ∧ ∃ item menu, (preProcessEvent v (v.indexAt point)).1 = some item
          ∧ v.getContextMenu item = some menu := by
  obtain ⟨c, hc, hexec⟩ := hexec
  by_cases hp : point.isNull = true
  · rw [processContextMenu_of_null v point (Or.inl hp)] at hc
    exact absurd hc (List.not_mem_nil c)
  by_cases hcur : v.cursorPos.isNull = true
  · rw [processContextMenu_of_null v point (Or.inr hcur)] at hc
    exact absurd hc (List.not_mem_nil c)
  have hp2 : point.isNull = false := by simpa using hp
  have hcur2 : v.cursorPos.isNull = false := by simpa using hcur
  refine ⟨hp2, hcur2, ?_⟩
  cases hg : (preProcessEvent v (v.indexAt point)).1 with
  | none =>
    rcases processContextMenu_of_closed v point hg with h | h
    · rw [h] at hc
      exact absurd hc (List.not_mem_nil c)
    · rw [h] at hc
      have := (preProcessEvent_calls_not_gated v _ c hc).1
      simp [Call.isGated, hexec] at this
  | some item =>
    cases hm : v.getContextMenu item with
    | none =>
      unfold processContextMenu at hc
      rw [if_neg (by simp [hp2, hcur2]), preProcessEvent_of_open v _ item hg] at hc
      simp only [hm, List.cons_append, List.nil_append, List.mem_cons, List.mem_nil_iff,
        or_false] at hc
      rcases hc with h | h | h <;> subst h <;> simp [Call.isMenuExec] at hexec
    | some menu => exact ⟨item, menu, rfl, hm⟩

/-! ## Properties of the preprocessing gate -/

/-- C1: when the addressed handle is invalid, or resolves to no node, or resolves to a
locked node, no entry point calls `onClick`, `onWheelClick` or `getContextMenu` on any
node, requests an expand or displays a menu: neither `processClick`, nor
`processWheelClick`, nor `processContextMenu` at a point of that handle, nor
`keyPressEvent` with that handle as the single selection (whatever the key, Enter and
Return included), nor the wheel click that `mousePressEvent` emits. -/
theorem gate_closed_blocks_every_entry_point (v : TreeView) (index : QModelIndex)
    (hclosed : gateClosed v index) :
    (∀ c ∈ processClick v index, c.isGated = false)
    ∧ (∀ c ∈ processWheelClick v index, c.isGated = false)
    ∧ (∀ point : QPoint, v.indexAt point = index →
        ∀ c ∈ processContextMenu v point, c.isGated = false)
    ∧ (∀ event : QKeyEvent, v.selectedIndexes = [index] →
        ∀ c ∈ keyPressEvent v event, c.isGated = false)
    ∧ (∀ event : QMouseEvent, v.indexAt event.pos = index →
        ∀ c ∈ mousePressEvent v event, c.isGated = false) := by
  have hnone := preProcessEvent_of_closed v index hclosed
  have hpre : ∀ c ∈ (preProcessEvent v index).2, c.isGated = false :=
    fun c hc => (preProcessEvent_calls_not_gated v index c hc).1
  refine ⟨?_, ?_, ?_, ?_, ?_⟩
  · rw [processClick_of_closed v index hnone]
    exact hpre
  · rw [processWheelClick_of_closed v index hnone]
    exact hpre
  · intro point hpt c hc
    subst hpt
    rcases processContextMenu_of_closed v point hnone with h | h
    · rw [h] at hc
      exact absurd hc (List.not_mem_nil c)
    · rw [h] at hc
      exact hpre c hc
  · intro event hsel
    rw [keyPressEvent_of_closed v event index hsel hnone]
    exact hpre
  · intro event hpt c hc
    subst hpt
    unfold mousePressEvent wheelClicked at hc
    rw [processWheelClick_of_closed v _ hnone] at hc
    rcases List.mem_append.1 hc with h | h
    · by_cases hb : event.button = MouseButton.MiddleButton
      · rw [if_pos hb] at h
        exact hpre c h
      · rw [if_neg hb] at h
        exact absurd h (List.not_mem_nil c)
    · rw [List.mem_singleton.1 h]
      rfl

/-- C2: `preProcessEvent` returns the node `item` exactly when the handle is valid, the
model resolves it to `item` and `item` is not locked, and returns no target in every
other case; on an invalid handle it calls nothing at all, and whatever the handle its
only calls are `getItemFromIndex` on that handle and `isLocked` on the node that the
model returned for it. -/
theorem preProcessEvent_returns_unlocked_node (v : TreeView) (index : QModelIndex) :
    (∀ item : TreeItem,
        (preProcessEvent v index).1 = some item
          ↔ (index.isValid = true ∧ v.getItemFromIndex index = some item
              ∧ v.isLocked item = false))
    ∧ ((preProcessEvent v index).1 = none
          ↔ ¬ ∃ item : TreeItem, index.isValid = true ∧ v.getItemFromIndex index = some item
              ∧ v.isLocked item = false)
    ∧ (index.isValid = false → (preProcessEvent v index).2 = [])
    ∧ (∀ c ∈ (preProcessEvent v index).2,
        c = Call.getItemFromIndex index
          ∨ ∃ item, v.getItemFromIndex index = some item ∧ c = Call.isLocked item)
    ∧ (∀ c ∈ (preProcessEvent v index).2, c.isCapability = false) := by
  refine ⟨preProcessEvent_eq_some_iff v index, ?_, ?_, preProcessEvent_calls v index, ?_⟩
  · constructor
    · rintro hnone ⟨item, h⟩
      rw [(preProcessEvent_eq_some_iff v index item).2 h] at hnone
      exact absurd hnone (by simp)
    · intro hno
      cases hp : (preProcessEvent v index).1 with
      | none => rfl
      | some item => exact absurd ⟨item, (preProcessEvent_eq_some_iff v index item).1 hp⟩ hno
  · intro hv
    unfold preProcessEvent
    simp [hv]
  · intro c hc
    rcases preProcessEvent_calls v index c hc with h | ⟨item, _, h⟩ <;> subst h <;> rfl

/-- Witness for C1 on a view whose nodes are locked. -/
theorem gate_closed_blocks_every_entry_point_witness :
    gateClosed lockedView sampleIndex
    ∧ (∀ c ∈ keyPressEvent lockedView returnKeyEvent, c.isGated = false) :=
  have hclosed : gateClosed lockedView sampleIndex := Or.inr (Or.inr ⟨3, by decide, rfl⟩)
  ⟨hclosed,
   (gate_closed_blocks_every_entry_point lockedView sampleIndex hclosed).2.2.2.1
     returnKeyEvent rfl⟩

/-! ## Properties of the keyboard path -/

/-- C6: for a key other than Enter and Return, a single selection whose node passes the
gate and a menu whose action list is `pre ++ action :: post`, where `action` is the first
action with a non-empty shortcut equal to the normalized key, the handler triggers
`action` and nothing else: its calls are the two of the gate, `getContextMenu` and the
one `trigger`; no earlier and no later action is triggered and the default key handling
is not called. -/
theorem keyPressEvent_triggers_first_match (v : TreeView) (event : QKeyEvent)
    (index : QModelIndex) (item : TreeItem) (menu : QMenu) (pre post : List QAction)
    (action : QAction)
    (hsel : v.selectedIndexes = [index])
    (hkey : event.key ≠ Key_Return ∧ event.key ≠ Key_Enter)
    (hgate : (preProcessEvent v index).1 = some item)
    (hmenu : v.getContextMenu item = some menu)
    (hactions : menu.actions = pre ++ action :: post)
    (hpre : ∀ b ∈ pre,
      ¬ (b.shortcut.isEmpty = false ∧ b.shortcut = keySequenceFromKeyEvent event))
    (hact : action.shortcut.isEmpty = false
      ∧ action.shortcut = keySequenceFromKeyEvent event) :
    keyPressEvent v event
        = [Call.getItemFromIndex index, Call.isLocked item, Call.getContextMenu item,
            Call.trigger action]
    ∧ (keyPressEvent v event).filter Call.isTrigger = [Call.trigger action]
    ∧ (∀ c ∈ keyPressEvent v event, c.isBaseKeyPress = false) := by
  have hscan : scanActions event (keySequenceFromKeyEvent event) menu.actions
      = [Call.trigger action] := by
    rw [hactions]
    apply scanActions_first_match
    · intro b hb
      have := hpre b hb
      rw [← shortcut_condition_iff] at this
      simpa using this
    · exact (shortcut_condition_iff action event).2 hact
  have htrace : keyPressEvent v event
      = [Call.getItemFromIndex index, Call.isLocked item, Call.getContextMenu item,
          Call.trigger action] := by
    rw [keyPressEvent_single v event index hsel,
      if_neg (fun h => h.elim hkey.1 hkey.2), preProcessEvent_of_open v index item hgate]
    simp only [hmenu, hscan]
    rfl
  refine ⟨htrace, ?_, ?_⟩
  · rw [htrace]; rfl
  · rw [htrace]
    intro c hc
    simp only [List.mem_cons, List.mem_nil_iff, or_false] at hc
    rcases hc with h | h | h | h <;> subst h <;> rfl

/-- Witness for C6: the key `A` on a menu whose second and third actions are both bound
to `A`, after an action without shortcut. -/
theorem keyPressEvent_triggers_first_match_witness :
    keyPressEvent sampleView letterKeyEvent
      = [Call.getItemFromIndex sampleIndex, Call.isLocked 3, Call.getContextMenu 3,
          Call.trigger reloadAction] :=
  (keyPressEvent_triggers_first_match sampleView letterKeyEvent sampleIndex 3 sampleMenu
    [copyAction] [renameAction] reloadAction rfl (by decide) (by decide) rfl rfl
    (by decide) (by decide)).1

/-- C7: with exactly one selected handle, a press of Return or Enter, whatever its
modifiers, makes exactly the calls of `processClick` on that handle: `onClick` is called
on a node exactly when the handle passes the gate to that node, the only expand request
is for the selected handle and it is made exactly when `onClick` returned true; the
handler never calls `getContextMenu`, triggers no action and does not call the default
key handling. -/
theorem keyPressEvent_return_is_click (v : TreeView) (event : QKeyEvent)
    (index : QModelIndex)
    (hsel : v.selectedIndexes = [index])
    (hkey : event.key = Key_Return ∨ event.key = Key_Enter) :
    keyPressEvent v event = processClick v index
    ∧ (∀ item : TreeItem,
        Call.onClick item ∈ keyPressEvent v event ↔ (preProcessEvent v index).1 = some item)
    ∧ (∀ other : QModelIndex,
        Call.expand other ∈ keyPressEvent v event
          ↔ (other = index
              ∧ ∃ item, (preProcessEvent v index).1 = some item ∧ v.onClick item = true))
    ∧ (∀ c ∈ keyPressEvent v event,
        (∀ item, c ≠ Call.getContextMenu item) ∧ c.isTrigger = false
          ∧ c.isBaseKeyPress = false ∧ c.isMenuExec = false) := by
  have heq : keyPressEvent v event = processClick v index := by
    rw [keyPressEvent_single v event index hsel, if_pos hkey]
  rw [heq]
  refine ⟨rfl, ?_, ?_, ?_⟩
  · intro item
    cases hp : (preProcessEvent v index).1 with
    | none =>
      rw [processClick_of_closed v index hp]
      constructor
      · intro hmem
        have := (preProcessEvent_calls_not_gated v index _ hmem).1
        simp [Call.isGated, Call.isCapability, Call.isExpand] at this
      · intro h; exact absurd h (by simp)
    | some item2 =>
      rw [processClick_of_open v index item2 hp]
      by_cases hc : v.onClick item2 = true <;> simp [hc, eq_comm]
  · intro other
    cases hp : (preProcessEvent v index).1 with
    | none =>
      rw [processClick_of_closed v index hp]
      constructor
      · intro hmem
        have := (preProcessEvent_calls_not_gated v index _ hmem).1
        simp [Call.isGated, Call.isCapability, Call.isExpand] at this
      · rintro ⟨_, item, h, _⟩; exact absurd h (by simp)
    | some item2 =>
      rw [processClick_of_open v index item2 hp]
      by_cases hc : v.onClick item2 = true <;> simp [hc]
  · intro c hc
    cases hp : (preProcessEvent v index).1 with
    | none =>
      rw [processClick_of_closed v index hp] at hc
      rcases preProcessEvent_calls v index c hc with h | ⟨item, _, h⟩ <;> subst h <;>
        exact ⟨fun _ => by simp, rfl, rfl, rfl⟩
    | some item2 =>
      rw [processClick_of_open v index item2 hp] at hc
      have hc2 : c ∈ [Call.getItemFromIndex index, Call.isLocked item2,
          Call.logClick index.row, Call.onClick item2, Call.expand index] := by
        rcases List.mem_append.1 hc with h | h
        · exact List.mem_append_left [Call.expand index] h
        · by_cases hcl : v.onClick item2 = true
          · rw [if_pos hcl] at h
            exact List.mem_append_right
              [Call.getItemFromIndex index, Call.isLocked item2, Call.logClick index.row,
                Call.onClick item2] h
          · rw [if_neg hcl] at h
            exact absurd h (List.not_mem_nil c)
      simp only [List.mem_cons, List.mem_nil_iff, or_false] at hc2
      rcases hc2 with h | h | h | h | h <;> subst h <;>
        exact ⟨fun _ => by simp, rfl, rfl, rfl⟩

/-- Witness for C7: Return on the sample view clicks the selected node and expands it. -/
theorem keyPressEvent_return_is_click_witness :
    sampleView.selectedIndexes = [sampleIndex]
    ∧ keyPressEvent sampleView returnKeyEvent = processClick sampleView sampleIndex :=
  ⟨rfl, (keyPressEvent_return_is_click sampleView returnKeyEvent sampleIndex rfl
    (Or.inl rfl)).1⟩

/-- C8: at a press of the key `Down` with a single selected handle, `keyPressEvent`
returns without calling the default key handling when the selected node is locked (the
gate gives no target) and when the node returns a null menu; the default handling is
reached only through the scan of an action list, here the empty one. -/
theorem keyPressEvent_returns_without_default_handling :
    keyPressEvent lockedView downKeyEvent
        = [Call.getItemFromIndex sampleIndex, Call.isLocked 3]
    ∧ Call.baseKeyPressEvent downKeyEvent ∉ keyPressEvent lockedView downKeyEvent
    ∧ keyPressEvent menulessView downKeyEvent
        = [Call.getItemFromIndex sampleIndex, Call.isLocked 3, Call.getContextMenu 3]
    ∧ Call.baseKeyPressEvent downKeyEvent ∉ keyPressEvent menulessView downKeyEvent
    ∧ keyPressEvent { sampleView with getContextMenu := fun _ => some ⟨[]⟩ } downKeyEvent
        = [Call.getItemFromIndex sampleIndex, Call.isLocked 3, Call.getContextMenu 3,
            Call.baseKeyPressEvent downKeyEvent] := by
  decide

/-- C10: a press of one of the keys `Key_Control`, `Key_Shift`, `Key_Alt`, `Key_Meta` or
of `Key_unknown` triggers no action, whatever the selection, the nodes and the action
lists are, actions with an empty shortcut included. -/
theorem keyPressEvent_lone_modifier_triggers_nothing (v : TreeView) (event : QKeyEvent)
    (hkey : isLoneModifierOrUnknown event.key) :
    ∀ c ∈ keyPressEvent v event, c.isTrigger = false := by
  intro c hc
  by_cases hlen : v.selectedIndexes.length = 1
  · obtain ⟨index, hsel⟩ := List.length_eq_one.1 hlen
    have hnot : ¬ (event.key = Key_Return ∨ event.key = Key_Enter) := by
      unfold isLoneModifierOrUnknown at hkey
      rcases hkey with h | h | h | h | h <;> rw [h] <;> decide
    rw [keyPressEvent_single v event index hsel, if_neg hnot,
      keySequence_of_lone_modifier event hkey] at hc
    cases hp : (preProcessEvent v index).1 with
    | none =>
      have hpair : preProcessEvent v index = (none, (preProcessEvent v index).2) := by
        rw [← hp]
      rw [hpair] at hc
      exact (preProcessEvent_calls_not_gated v index c hc).2.1
    | some item =>
      rw [preProcessEvent_of_open v index item hp] at hc
      cases hm : v.getContextMenu item with
      | none =>
        simp only [hm] at hc
        simp only [List.cons_append, List.nil_append, List.mem_cons, List.mem_nil_iff,
          or_false] at hc
        rcases hc with h | h | h <;> subst h <;> rfl
      | some menu =>
        simp only [hm] at hc
        have hscan := scanActions_no_match event QKeySequence.empty menu.actions
          (fun b _ => nonempty_never_matches_empty b.shortcut)
        simp only [hscan, List.cons_append, List.nil_append, List.mem_cons, List.mem_nil_iff,
          or_false] at hc
        rcases hc with h | h | h | h <;> subst h <;> rfl
  · rw [keyPressEvent_not_single v event hlen] at hc
    rw [List.mem_singleton.1 hc]
    rfl

/-- Witness for C10: Shift alone on a node whose menu starts with an action that has no
shortcut. -/
theorem keyPressEvent_lone_modifier_triggers_nothing_witness :
    isLoneModifierOrUnknown shiftKeyEvent.key
    ∧ copyAction ∈ sampleMenu.actions ∧ copyAction.shortcut.isEmpty = true
    ∧ ∀ c ∈ keyPressEvent sampleView shiftKeyEvent, c.isTrigger = false :=
  ⟨by decide, by decide, by decide,
   keyPressEvent_lone_modifier_triggers_nothing sampleView shiftKeyEvent (by decide)⟩

/-! ## Properties of the context-menu path -/

/-- C9, as stated, fails: the point (5, 5) is not null, its handle passes the gate to
node 3 and node 3 returns a menu, yet nothing is displayed (no call is made at all)
because `QCursor::pos()` is the null point. -/
theorem processContextMenu_silent_when_cursor_at_origin :
    (⟨5, 5⟩ : QPoint).isNull = false
    ∧ (preProcessEvent cursorAtOriginView (cursorAtOriginView.indexAt ⟨5, 5⟩)).1 = some 3
    ∧ cursorAtOriginView.getContextMenu 3 = some sampleMenu
    ∧ processContextMenu cursorAtOriginView ⟨5, 5⟩ = [] := by
  decide

/-- C9, amended: at a point whose target node returns either no menu or a menu with at
least one action, `processContextMenu` displays a menu exactly when neither the requested
point nor the current cursor position `QCursor::pos()` is null, the handle at the point
passes the gate to a node and that node returns a non-empty result, a menu with at least
one action; that menu is then displayed exactly once, at the point mapped to global
coordinates.  In every other case no menu is displayed, and when the point or the cursor
position is null no call is made, so `getContextMenu` is not invoked.  The case of a menu
without any action is left out. -/
theorem processContextMenu_displays_iff (v : TreeView) (point : QPoint)
    (hresult : ∀ item menu, (preProcessEvent v (v.indexAt point)).1 = some item →
      v.getContextMenu item = some menu → menu.actions ≠ []) :
    ((∃ c ∈ processContextMenu v point, c.isMenuExec = true)
      ↔ (point.isNull = false ∧ v.cursorPos.isNull = false
          ∧ ∃ item menu, (preProcessEvent v (v.indexAt point)).1 = some item
              ∧ v.getContextMenu item = some menu ∧ menu.actions ≠ []))
    ∧ (∀ item menu, point.isNull = false → v.cursorPos.isNull = false →
        (preProcessEvent v (v.indexAt point)).1 = some item →
        v.getContextMenu item = some menu → menu.actions ≠ [] →
        processContextMenu v point
            = [Call.getItemFromIndex (v.indexAt point), Call.isLocked item,
                Call.getContextMenu item, Call.menuExec menu (v.mapToGlobal point)]
        ∧ (processContextMenu v point).filter Call.isMenuExec
            = [Call.menuExec menu (v.mapToGlobal point)])
    ∧ ((point.isNull = true ∨ v.cursorPos.isNull = true) →
        processContextMenu v point = []) := by
  refine ⟨⟨?_, ?_⟩, ?_, processContextMenu_of_null v point⟩
  · intro hexec
    obtain ⟨hp, hcur, item, menu, hgate, hmenu⟩ := processContextMenu_exec_origin v point hexec
    exact ⟨hp, hcur, item, menu, hgate, hmenu, hresult item menu hgate hmenu⟩
  · rintro ⟨hp, hcur, item, menu, hgate, hmenu, _⟩
    refine ⟨Call.menuExec menu (v.mapToGlobal point), ?_, rfl⟩
    rw [processContextMenu_of_menu v point item menu hp hcur hgate hmenu]
    simp
  · intro item menu hp hcur hgate hmenu _
    refine ⟨processContextMenu_of_menu v point item menu hp hcur hgate hmenu, ?_⟩
    rw [processContextMenu_of_menu v point item menu hp hcur hgate hmenu]
    rfl

/-- Witness for the amended C9: at the point (5, 5) of the sample view, whose node offers
a menu of three actions, that menu is displayed. -/
theorem processContextMenu_displays_iff_witness :
    (∀ item menu,
        (preProcessEvent sampleView (sampleView.indexAt ⟨5, 5⟩)).1 = some item →
        sampleView.getContextMenu item = some menu → menu.actions ≠ [])
    ∧ ∃ c ∈ processContextMenu sampleView ⟨5, 5⟩, c.isMenuExec = true :=
  have hresult : ∀ item menu,
      (preProcessEvent sampleView (sampleView.indexAt ⟨5, 5⟩)).1 = some item →
      sampleView.getContextMenu item = some menu → menu.actions ≠ [] :=
    fun _ _ _ hmenu => Option.some.inj hmenu ▸ (by decide)
  ⟨hresult,
   (processContextMenu_displays_iff sampleView ⟨5, 5⟩ hresult).1.2
     ⟨by decide, by decide, 3, sampleMenu, by decide, rfl, by decide⟩⟩

/-- A menu without any action is handed to `exec` all the same: line 114 tests the menu
pointer with `isNull()`, not the action list. -/
theorem processContextMenu_execs_menu_without_actions :
    processContextMenu actionlessView ⟨5, 5⟩
      = [Call.getItemFromIndex sampleIndex, Call.isLocked 3, Call.getContextMenu 3,
          Call.menuExec ⟨[]⟩ ⟨105, 105⟩] := by
  decide

end ConnectionsTree
